import Mathlib

/-!
Shallow embedding of the `cnote` in-memory note daemon (`daemon.go`,
`models.go`), for checking the natural-language specification against the
code.

The Go `NoteService` holds `notes []*Note` (a slice of pointers) and an
auto-increment counter `nextID`. Pointer structure matters observationally
(`Pin` mutates a note in place through the pointer held in the slice, while
`List` copies the pointees into the reply), so the state is modelled with an
explicit heap: `heap` is the list of allocated `Note` cells, a pointer is an
index into `heap`, and `ptrs` models the `notes` slice of pointers.
Machine integers are modelled as `Int` (Go `int`), timestamps as `Nat`
supplied to `Add` as the current time.
-/

/-- `Note` from `models.go`: id, text, pinned flag and creation timestamp. -/
structure Note where
  id : Int
  text : String
  pinned : Bool
  createdAt : Nat
  deriving Repr, DecidableEq

instance : Inhabited Note := ⟨{ id := 0, text := "", pinned := false, createdAt := 0 }⟩

/-- Arguments of `NoteService.Add`. `models.go` declares only `Text`, but the
`add` CLI command in `main.go` constructs `AddArgs{Text: ..., Pinned: pinFlag}`
from its `--pin` flag, so the wire argument carries both fields; `Add` in
`daemon.go` reads only the text. -/
structure AddArgs where
  text : String
  pinned : Bool
  deriving Repr, DecidableEq

/-- Arguments of the selector-taking RPC methods (`IDArgs` in `models.go`). -/
structure IDArgs where
  idStr : String
  deriving Repr, DecidableEq

/-- Reply of the single-note operations (`NoteReply` in `models.go`). The Go
`Note *Note` field is a pointer, modelled as an optional heap address; the
`Error` string is never assigned by the server and stays empty. -/
structure NoteReply where
  note : Option Nat
  message : String
  error : String := ""
  deriving Repr, DecidableEq

/-- Reply of `List` (`ListReply` in `models.go`): note values, not pointers. -/
structure ListReply where
  notes : List Note
  error : String := ""
  deriving Repr, DecidableEq

/-- The in-memory store of `daemon.go`. `heap` holds every allocated note
cell, `ptrs` is the `notes []*Note` slice (each entry an index into `heap`),
`nextID` the auto-increment counter. -/
structure NoteService where
  heap : List Note
  ptrs : List Nat
  nextID : Int
  deriving Repr, DecidableEq

/-- Dereference a pointer: Go would fault on a dangling pointer; the model
totalises with the zero `Note`. Reachable states keep every pointer valid. -/
def deref (s : NoteService) (p : Nat) : Note :=
  s.heap.getD p default

/-- The sequence of note values currently in the store, in slice order:
what the Go code sees when it walks `s.notes` and reads the pointees. -/
def view (s : NoteService) : List Note :=
  s.ptrs.map (deref s)

/-- All pointers of the `notes` slice are valid heap addresses; true of every
state reachable from a fresh store. -/
def WF (s : NoteService) : Prop :=
  ∀ p ∈ s.ptrs, p < s.heap.length

instance : DecidablePred WF := fun s =>
  inferInstanceAs (Decidable (∀ p ∈ s.ptrs, p < s.heap.length))

instance {ε α : Type} [DecidableEq ε] [DecidableEq α] : DecidableEq (Except ε α) := fun x y =>
  match x, y with
  | .error e, .error e' =>
    if h : e = e' then isTrue (by rw [h]) else isFalse (fun hc => h (Except.error.inj hc))
  | .ok a, .ok b =>
    if h : a = b then isTrue (by rw [h]) else isFalse (fun hc => h (Except.ok.inj hc))
  | .error _, .ok _ => isFalse (fun hc => Except.noConfusion hc)
  | .ok _, .error _ => isFalse (fun hc => Except.noConfusion hc)

/-- The fresh state built by `StartDaemon`: no notes, counter seeded at 1. -/
def fresh : NoteService :=
  { heap := [], ptrs := [], nextID := 1 }

/-- Error outcomes of `resolveID` (`daemon.go`); the spec's taxonomy names
them `EmptyStore`, `InvalidSelector` and `NotFound`. -/
inductive ResolveErr where
  | emptyStore
  | invalidSelector
  | notFound (id : Int)
  deriving Repr, DecidableEq

/-- The Go error strings produced by `fmt.Errorf` in `resolveID`. -/
def ResolveErr.message : ResolveErr → String
  | .emptyStore => "list is empty"
  | .invalidSelector => "invalid ID format"
  | .notFound id => "note with ID " ++ toString id ++ " not found"

/-- Largest value of Go `int` (64-bit). -/
def intMax : Int := 2 ^ 63 - 1

/-- Smallest value of Go `int` (64-bit). -/
def intMin : Int := -(2 ^ 63)

/-- Two's-complement wrap-around of Go 64-bit `int` arithmetic: Go signed
integer overflow is defined to wrap, so `nextID++` at `intMax` yields
`intMin`. -/
def wrapInt (v : Int) : Int :=
  (v + 2 ^ 63) % 2 ^ 64 - 2 ^ 63

/-- Accumulate decimal digits; fails on the first non-digit character. -/
def digitsToNat : List Char → Nat → Option Nat
  | [], acc => some acc
  | c :: rest, acc =>
    if c.isDigit then digitsToNat rest (acc * 10 + (c.toNat - 48)) else none

/-- Model of Go `strconv.Atoi`: optional single leading sign, then one or
more ASCII digits and nothing else; errors when the value overflows `int`. -/
def goAtoi (str : String) : Option Int :=
  let stripped : Bool × List Char :=
    match str.data with
    | '+' :: rest => (false, rest)
    | '-' :: rest => (true, rest)
    | cs => (false, cs)
  match stripped.2 with
  | [] => none
  | ds =>
    match digitsToNat ds 0 with
    | none => none
    | some n =>
      let v : Int := if stripped.1 then -(n : Int) else (n : Int)
      if v < intMin ∨ intMax < v then none else some v

/-- Model of Go `strings.ToLower` as used by `resolveID`: character-wise
lowercasing (ASCII simple case mapping via `Char.toLower`, which agrees with
Go on every ASCII selector). -/
def lowerStr (str : String) : String :=
  ⟨str.data.map Char.toLower⟩

/-- The id-scanning loop of `resolveID`: first index (counting from `i`)
whose pointee has the requested id, returned with its pointer. -/
def findNote (s : NoteService) : List Nat → Nat → Int → Option (Nat × Nat)
  | [], _, _ => none
  | p :: rest, i, id =>
    if (deref s p).id = id then some (p, i) else findNote s rest (i + 1) id

/-- `resolveID` from `daemon.go`: converts "first", "last" or a decimal id
into the pointer and index of a note. Keyword comparison goes through
`strings.ToLower`, modelled by `lowerStr` (ASCII simple case mapping,
which agrees with Go on every ASCII selector). -/
def NoteService.resolveID (s : NoteService) (idStr : String) : Except ResolveErr (Nat × Nat) :=
  if s.ptrs.length = 0 then .error .emptyStore
  else if lowerStr idStr = "first" then .ok (s.ptrs.getD 0 0, 0)
  else if lowerStr idStr = "last" then .ok (s.ptrs.getD (s.ptrs.length - 1) 0, s.ptrs.length - 1)
  else
    match goAtoi idStr with
    | none => .error .invalidSelector
    | some id =>
      match findNote s s.ptrs 0 id with
      | some pi => .ok pi
      | none => .error (.notFound id)

/-- `Add` from `daemon.go`: allocates a note carrying the next id and the
current time, appends its pointer to the slice, bumps the counter with Go's
wrapping 64-bit signed increment (`s.nextID++` overflows to `intMin`). The
`pinned` field of the request is ignored: the code hardcodes `Pinned: false`.
Returns (reply, new state); the reply's note is the pointer to the stored
note. -/
def NoteService.Add (s : NoteService) (args : AddArgs) (now : Nat) : NoteReply × NoteService :=
  let n : Note := { id := s.nextID, text := args.text, pinned := false, createdAt := now }
  let p : Nat := s.heap.length
  ({ note := some p, message := "🎩 Note added (ID: " ++ toString n.id ++ ")" },
   { heap := s.heap ++ [n], ptrs := s.ptrs ++ [p], nextID := wrapInt (s.nextID + 1) })

/-- `List` from `daemon.go`: copies every pointee into the reply
(`list[i] = *n`), leaving the store untouched. -/
def NoteService.List (s : NoteService) : ListReply × NoteService :=
  ({ notes := s.ptrs.map (deref s) }, s)

/-- `Remove` from `daemon.go`: resolves the selector, splices the pointer out
of the slice (`append(s.notes[:idx], s.notes[idx+1:]...)`), and replies with
a message naming the removed id; the reply's `Note` field is never
assigned. -/
def NoteService.Remove (s : NoteService) (args : IDArgs) : Except ResolveErr NoteReply × NoteService :=
  match s.resolveID args.idStr with
  | .error e => (.error e, s)
  | .ok (p, idx) =>
    (.ok { note := none, message := "🗑️ Removed note " ++ toString (deref s p).id },
     { s with ptrs := s.ptrs.take idx ++ s.ptrs.drop (idx + 1) })

/-- `Clear` from `daemon.go`: drops the whole slice; the counter and the heap
cells are untouched. -/
def NoteService.Clear (s : NoteService) : NoteReply × NoteService :=
  ({ note := none, message := "✨ All notes cleared. Session ended." },
   { s with ptrs := [] })

/-- `Pin` from `daemon.go`: resolves the selector and sets `Pinned` through
the pointer (`note.Pinned = true`), so the heap cell is updated in place; the
reply carries the pointer to the (now pinned) note. -/
def NoteService.Pin (s : NoteService) (args : IDArgs) : Except ResolveErr NoteReply × NoteService :=
  match s.resolveID args.idStr with
  | .error e => (.error e, s)
  | .ok (p, _) =>
    let n := deref s p
    (.ok { note := some p, message := "📌 Pinned note " ++ toString n.id },
     { s with heap := s.heap.set p { n with pinned := true } })

/-- `Unpin` from `daemon.go`: like `Pin` with `Pinned` set to false. -/
def NoteService.Unpin (s : NoteService) (args : IDArgs) : Except ResolveErr NoteReply × NoteService :=
  match s.resolveID args.idStr with
  | .error e => (.error e, s)
  | .ok (p, _) =>
    let n := deref s p
    (.ok { note := some p, message := "Unpinned note " ++ toString n.id },
     { s with heap := s.heap.set p { n with pinned := false } })

/-- `Show` from `daemon.go`: resolves the selector and replies with the
pointer; no mutation, no message. -/
def NoteService.Show (s : NoteService) (args : IDArgs) : Except ResolveErr NoteReply × NoteService :=
  match s.resolveID args.idStr with
  | .error e => (.error e, s)
  | .ok (p, _) => (.ok { note := some p, message := "" }, s)

/-- One RPC request, as the daemon dispatches them. `add` carries the current
time alongside the arguments, since `Add` reads the clock. -/
inductive Op where
  | add (text : String) (pinned : Bool) (now : Nat)
  | remove (sel : String)
  | clear
  | pin (sel : String)
  | unpin (sel : String)
  | showOp (sel : String)
  | list
  deriving Repr, DecidableEq

/-- State transition of one RPC request (reply discarded). -/
def applyOp (s : NoteService) : Op → NoteService
  | .add text pinned now => (s.Add { text := text, pinned := pinned } now).2
  | .remove sel => (s.Remove { idStr := sel }).2
  | .clear => s.Clear.2
  | .pin sel => (s.Pin { idStr := sel }).2
  | .unpin sel => (s.Unpin { idStr := sel }).2
  | .showOp sel => (s.Show { idStr := sel }).2
  | .list => s.List.2

/-- Run a sequence of requests from a given state. -/
def runOps (s : NoteService) : List Op → NoteService
  | [] => s
  | op :: rest => runOps (applyOp s op) rest

/-- The ids handed out by the `add` calls of a request sequence, in call
order: each `Add` assigns the counter value current when it runs. -/
def issuedIDs (s : NoteService) : List Op → List Int
  | [] => []
  | op :: rest =>
    match op with
    | .add _ _ _ => s.nextID :: issuedIDs (applyOp s op) rest
    | _ => issuedIDs (applyOp s op) rest

/-- Number of `add` requests in a sequence: each one executes `s.nextID++`
(wrapping), so this counts the counter increments. -/
def addCount : List Op → Nat
  | [] => 0
  | .add _ _ _ :: rest => addCount rest + 1
  | _ :: rest => addCount rest

/-!
Daemon lifecycle (`checkAutoShutdown` / `shutdown` in `daemon.go`).
`Remove` (after a successful deletion) and `Clear` call `checkAutoShutdown`,
which, when the slice is empty at that moment, spawns a goroutine that sleeps
for the 100 ms grace interval and then calls `shutdown()` — unconditionally:
the goroutine body does not re-read the note count. The interleaving of
those timers with later requests is modelled as a state machine: `pending`
counts scheduled not-yet-elapsed timers, and the `fire` event is one timer's
sleep elapsing, which per the code kills the process regardless of the
store's current contents.
-/

/-- Daemon process state: the store, the number of scheduled shutdown timers
whose grace interval has not yet elapsed, and whether the process is still
alive (socket present, requests served). -/
structure DaemonState where
  svc : NoteService
  pending : Nat
  alive : Bool
  deriving Repr, DecidableEq

/-- Does handling `op` in state `s` schedule a deferred shutdown? Per
`daemon.go`: `Remove` reaches `checkAutoShutdown` only on success, `Clear`
always does, and the check schedules iff the slice is empty afterwards. -/
def schedulesShutdown (s : NoteService) : Op → Bool
  | .remove sel =>
    match s.resolveID sel with
    | .ok _ => (s.Remove { idStr := sel }).2.ptrs.length = 0
    | .error _ => false
  | .clear => true
  | _ => false

/-- An event at the daemon: an incoming RPC request, or the grace interval of
one scheduled shutdown timer elapsing. -/
inductive DEvent where
  | req (op : Op)
  | fire
  deriving Repr, DecidableEq

/-- One step of the daemon lifecycle. A request is served only while alive; a
timer firing runs the goroutine body `time.Sleep; s.shutdown()`, which exits
the process without re-checking whether notes have reappeared. -/
def dstep (d : DaemonState) : DEvent → DaemonState
  | .req op =>
    if d.alive then
      { svc := applyOp d.svc op,
        pending := d.pending + (if schedulesShutdown d.svc op then 1 else 0),
        alive := true }
    else d
  | .fire =>
    match d.pending with
    | 0 => d
    | n + 1 => { d with pending := n, alive := false }

/-- Run a sequence of daemon events. -/
def drun (d : DaemonState) : List DEvent → DaemonState
  | [] => d
  | e :: rest => drun (dstep d e) rest

/-- The daemon as `StartDaemon` boots it: fresh store, no timers, alive. -/
def dinit : DaemonState :=
  { svc := fresh, pending := 0, alive := true }

/-!
Concrete stores used by witnesses and counterexamples. `demo2` is the state
after `add "Buy milk"` then `add "Check logs"` on a fresh store; `demo1`
after a single `add`.
-/

def demo1 : NoteService :=
  { heap := [{ id := 1, text := "Buy milk", pinned := false, createdAt := 0 }],
    ptrs := [0], nextID := 2 }

def demo2 : NoteService :=
  { heap := [{ id := 1, text := "Buy milk", pinned := false, createdAt := 0 },
             { id := 2, text := "Check logs", pinned := false, createdAt := 1 }],
    ptrs := [0, 1], nextID := 3 }

example : (lowerStr "FiRst" = "first") := by decide
example : demo1 = applyOp fresh (.add "Buy milk" false 0) := by decide
example : demo2 = runOps fresh [.add "Buy milk" false 0, .add "Check logs" false 1] := by decide
example : goAtoi "42" = some 42 := by decide
example : goAtoi "-7" = some (-7) := by decide
example : goAtoi "abc" = none := by decide
example : goAtoi "" = none := by decide
example : goAtoi "+" = none := by decide
example : (fresh.Add { text := "x", pinned := true } 5).1.note = some 0 := by decide

/-!
Helper lemmas shared by the claim theorems.
-/

lemma getD_of_lt {α : Type} (l : List α) (d : α) (n : Nat) (h : n < l.length) :
    l.getD n d = l.get ⟨n, h⟩ := by
  simp [List.getD_eq_getElem?_getD, List.getElem?_eq_getElem h]

lemma view_getD (s : NoteService) (i : Nat) (hi : i < s.ptrs.length) :
    (view s).getD i default = deref s (s.ptrs.getD i 0) := by
  have hi' : i < (view s).length := by simpa [view] using hi
  rw [getD_of_lt _ _ _ hi', getD_of_lt _ _ _ hi]
  simp [view]

lemma getD_mem {α : Type} (l : List α) (d : α) (n : Nat) (h : n < l.length) :
    l.getD n d ∈ l := by
  rw [getD_of_lt _ _ _ h]
  exact List.get_mem l n h

lemma findNote_eq_none_iff (s : NoteService) (id : Int) :
    ∀ (l : List Nat) (i : Nat),
      findNote s l i id = none ↔ ∀ p ∈ l, (deref s p).id ≠ id := by
  intro l
  induction l with
  | nil => intro i; simp [findNote]
  | cons q rest ih =>
    intro i
    by_cases hq : (deref s q).id = id
    · simp [findNote, hq]
    · simp [findNote, hq, ih (i + 1)]

lemma findNote_some_spec (s : NoteService) (id : Int) :
    ∀ (l : List Nat) (i p j : Nat),
      findNote s l i id = some (p, j) →
      ∃ k, k < l.length ∧ j = i + k ∧ l.getD k 0 = p := by
  intro l
  induction l with
  | nil => intro i p j h; simp [findNote] at h
  | cons q rest ih =>
    intro i p j h
    by_cases hq : (deref s q).id = id
    · simp only [findNote, if_pos hq, Option.some.injEq, Prod.mk.injEq] at h
      obtain ⟨hqp, hij⟩ := h
      exact ⟨0, by simp, by omega, by simp [hqp]⟩
    · simp only [findNote, if_neg hq] at h
      obtain ⟨k, hk, hj, hp⟩ := ih (i + 1) p j h
      exact ⟨k + 1, by simpa using hk, by omega, by simpa using hp⟩

lemma resolveID_ok_spec (s : NoteService) (sel : String) (p idx : Nat)
    (h : s.resolveID sel = .ok (p, idx)) :
    idx < s.ptrs.length ∧ s.ptrs.getD idx 0 = p := by
  unfold NoteService.resolveID at h
  by_cases h0 : s.ptrs.length = 0
  · simp [h0] at h
  · rw [if_neg h0] at h
    by_cases hf : lowerStr sel = "first"
    · rw [if_pos hf] at h
      injection h with h2
      injection h2 with hA hB
      subst hB
      exact ⟨Nat.pos_of_ne_zero h0, hA⟩
    · rw [if_neg hf] at h
      by_cases hl : lowerStr sel = "last"
      · rw [if_pos hl] at h
        injection h with h2
        injection h2 with hA hB
        subst hB
        have hpos : 0 < s.ptrs.length := Nat.pos_of_ne_zero h0
        exact ⟨by omega, hA⟩
      · rw [if_neg hl] at h
        cases ha : goAtoi sel with
        | none => simp [ha] at h
        | some id =>
          simp only [ha] at h
          cases hfn : findNote s s.ptrs 0 id with
          | none => simp [hfn] at h
          | some pi =>
            simp only [hfn] at h
            injection h with h2
            subst h2
            obtain ⟨k, hk, hj, hgd⟩ := findNote_some_spec s id s.ptrs 0 p idx hfn
            have hkidx : k = idx := by omega
            rw [hkidx] at hk hgd
            exact ⟨hk, hgd⟩

/-!
Claim theorems.
-/

/-- C5: resolving any selector string against an empty store fails with the
`EmptyStore` error — never with `NotFound` and never with
`InvalidSelector`. -/
theorem resolve_on_empty_store_is_emptyStore (s : NoteService) (h : s.ptrs = []) (str : String) :
    s.resolveID str = .error .emptyStore ∧
    ∀ e, s.resolveID str = .error e → e = .emptyStore := by
  have h0 : s.ptrs.length = 0 := by simp [h]
  constructor
  · simp [NoteService.resolveID, h0]
  · intro e he
    rw [NoteService.resolveID, if_pos h0] at he
    injection he with he2
    exact he2.symm

/-- Witness for C5: on a fresh store, a keyword, a numeric and a malformed
selector all fail with `EmptyStore`. -/
theorem resolve_on_empty_store_is_emptyStore_witness :
    fresh.ptrs = [] ∧
    (fresh.resolveID "last" = .error .emptyStore ∧
      ∀ e, fresh.resolveID "last" = .error e → e = .emptyStore) ∧
    (fresh.resolveID "2" = .error .emptyStore ∧
      ∀ e, fresh.resolveID "2" = .error e → e = .emptyStore) ∧
    (fresh.resolveID "abc" = .error .emptyStore ∧
      ∀ e, fresh.resolveID "abc" = .error e → e = .emptyStore) :=
  ⟨rfl, resolve_on_empty_store_is_emptyStore fresh rfl "last",
    resolve_on_empty_store_is_emptyStore fresh rfl "2",
    resolve_on_empty_store_is_emptyStore fresh rfl "abc"⟩

/-- C10: when selector resolution fails, `Remove`, `Pin`, `Unpin` and `Show`
return that error with the store completely unchanged — the same heap (so
every note's pinned flag is intact), the same pointer sequence, and the same
next-id counter. -/
theorem failed_ops_leave_store_unchanged (s : NoteService) (sel : String) (e : ResolveErr)
    (h : s.resolveID sel = .error e) :
    s.Remove { idStr := sel } = (.error e, s) ∧
    s.Pin { idStr := sel } = (.error e, s) ∧
    s.Unpin { idStr := sel } = (.error e, s) ∧
    s.Show { idStr := sel } = (.error e, s) := by
  refine ⟨?_, ?_, ?_, ?_⟩ <;>
    simp [NoteService.Remove, NoteService.Pin, NoteService.Unpin, NoteService.Show, h]

/-- Witness for C10: a numeric selector on a store that lacks that id. -/
theorem failed_ops_leave_store_unchanged_witness :
    demo1.resolveID "7" = .error (.notFound 7) ∧
    (demo1.Remove { idStr := "7" } = (.error (.notFound 7), demo1) ∧
      demo1.Pin { idStr := "7" } = (.error (.notFound 7), demo1) ∧
      demo1.Unpin { idStr := "7" } = (.error (.notFound 7), demo1) ∧
      demo1.Show { idStr := "7" } = (.error (.notFound 7), demo1)) :=
  ⟨by decide, failed_ops_leave_store_unchanged demo1 "7" (.notFound 7) (by decide)⟩

/-- C7 (code evaluation): the `add` CLI command requests `Pinned: true` via
its `--pin` flag, but the stored note — and the note the reply points to —
has `pinned = false`: `Add` in `daemon.go` hardcodes `Pinned: false` and
ignores the request's pinned value. The rest of the claim behaves as stated:
the note carries the next id (1 on a fresh store) and the supplied timestamp,
is appended, and the reply references the stored note. -/
theorem add_ignores_requested_pin :
    (fresh.Add { text := "Buy milk", pinned := true } 5).1.note = some 0 ∧
    deref (fresh.Add { text := "Buy milk", pinned := true } 5).2 0 =
      { id := 1, text := "Buy milk", pinned := false, createdAt := 5 } ∧
    ((fresh.Add { text := "Buy milk", pinned := true } 5).2).ptrs = [0] ∧
    (deref (fresh.Add { text := "Buy milk", pinned := true } 5).2 0).pinned ≠ true := by
  refine ⟨rfl, by decide, rfl, by decide⟩

/-- C1 (code evaluation): removing the sole note schedules the deferred
shutdown; a note is added before the grace interval elapses; when the timer
fires, the goroutine body (`time.Sleep; s.shutdown()`) exits the process
without re-reading the note count, so the daemon terminates while the store
is non-empty — the emptiness condition is not re-evaluated at fire time. -/
theorem deferred_shutdown_kills_nonempty_store :
    (drun dinit [.req (.add "Buy milk" false 0), .req (.remove "1"),
      .req (.add "Check logs" false 1), .fire]).alive = false ∧
    (drun dinit [.req (.add "Buy milk" false 0), .req (.remove "1"),
      .req (.add "Check logs" false 1), .fire]).svc.ptrs ≠ [] := by
  constructor
  · decide
  · decide

/-- C4 counterexample: removing the only note of `demo1` succeeds, but the
reply's `Note` field is `none` — `Remove` in `daemon.go` only sets the
message and never assigns `reply.Note`, so the removed note (heap cell 0) is
not returned to the caller. -/
theorem remove_reply_counterexample :
    (demo1.Remove { idStr := "1" }).1 =
      .ok { note := none, message := "🗑️ Removed note 1" } ∧
    (demo1.Remove { idStr := "1" }).1 ≠
      .ok { note := some 0, message := "🗑️ Removed note 1" } := by
  constructor
  · decide
  · decide

/-- C4 as amended: `remove` deletes exactly the resolved note — every other
note keeps its id and its relative order (heap and counter untouched, the
pointer spliced out of the slice) — and the reply carries a human message
naming the removed note's id, but not the note object itself (its `Note`
field is left unset). -/
theorem remove_deletes_resolved_note (s : NoteService) (sel : String) (p idx : Nat)
    (h : s.resolveID sel = .ok (p, idx)) :
    (s.Remove { idStr := sel }).2.ptrs = s.ptrs.take idx ++ s.ptrs.drop (idx + 1) ∧
    (s.Remove { idStr := sel }).2.heap = s.heap ∧
    (s.Remove { idStr := sel }).2.nextID = s.nextID ∧
    view (s.Remove { idStr := sel }).2 = (view s).take idx ++ (view s).drop (idx + 1) ∧
    (s.Remove { idStr := sel }).1 =
      .ok { note := none, message := "🗑️ Removed note " ++ toString (deref s p).id } := by
  have hview : view (s.Remove { idStr := sel }).2 =
      (view s).take idx ++ (view s).drop (idx + 1) := by
    simp only [NoteService.Remove, h, view]
    have hde : deref { s with ptrs := s.ptrs.take idx ++ s.ptrs.drop (idx + 1) } = deref s := by
      funext q
      rfl
    rw [hde, List.map_append, List.map_take, List.map_drop]
  refine ⟨?_, ?_, ?_, hview, ?_⟩ <;> simp [NoteService.Remove, h]

/-- Witness for C4's amended theorem: removing "first" from the two-note
store drops exactly the first note. -/
theorem remove_deletes_resolved_note_witness :
    demo2.resolveID "first" = .ok (0, 0) ∧
    ((demo2.Remove { idStr := "first" }).2.ptrs = demo2.ptrs.take 0 ++ demo2.ptrs.drop 1 ∧
     (demo2.Remove { idStr := "first" }).2.heap = demo2.heap ∧
     (demo2.Remove { idStr := "first" }).2.nextID = demo2.nextID ∧
     view (demo2.Remove { idStr := "first" }).2 = (view demo2).take 0 ++ (view demo2).drop 1 ∧
     (demo2.Remove { idStr := "first" }).1 =
       .ok { note := none, message := "🗑️ Removed note " ++ toString (deref demo2 0).id }) :=
  ⟨by decide, remove_deletes_resolved_note demo2 "first" 0 0 (by decide)⟩

/-!
Infrastructure for the id-counter claims (C2, C8). `nextID` follows Go's
wrapping 64-bit signed arithmetic, so monotonicity holds only while the
counter cannot overflow: the lemmas bound the number of `Add` calls so that
the counter stays within `intMax`, and separate lemmas compute what happens
at the overflow point.
-/

lemma wrapInt_eq_self (v : Int) (h1 : intMin ≤ v) (h2 : v ≤ intMax) : wrapInt v = v := by
  have p63 : (2 : Int) ^ 63 = 9223372036854775808 := by norm_num
  have p64 : (2 : Int) ^ 64 = 18446744073709551616 := by norm_num
  simp only [intMin, intMax, p63] at h1 h2
  have h3 : (v + 9223372036854775808) % 18446744073709551616 =
      v + 9223372036854775808 :=
    Int.emod_eq_of_lt (by omega) (by omega)
  simp only [wrapInt, p63, p64, h3]
  omega

lemma nextID_applyOp_eq (s : NoteService) (op : Op) :
    (applyOp s op).nextID =
      match op with
      | .add _ _ _ => wrapInt (s.nextID + 1)
      | _ => s.nextID := by
  cases op with
  | add text pinned now => rfl
  | remove sel =>
    simp only [applyOp, NoteService.Remove]
    cases h : s.resolveID sel with
    | error e => simp [h]
    | ok pi => cases pi; simp [h]
  | clear => rfl
  | pin sel =>
    simp only [applyOp, NoteService.Pin]
    cases h : s.resolveID sel with
    | error e => simp [h]
    | ok pi => cases pi; simp [h]
  | unpin sel =>
    simp only [applyOp, NoteService.Unpin]
    cases h : s.resolveID sel with
    | error e => simp [h]
    | ok pi => cases pi; simp [h]
  | showOp sel =>
    simp only [applyOp, NoteService.Show]
    cases h : s.resolveID sel with
    | error e => simp [h]
    | ok pi => cases pi; simp [h]
  | list => rfl

lemma boundsStep (s : NoteService) (op : Op) (rest : List Op)
    (ih : ∀ s : NoteService, intMin ≤ s.nextID →
      s.nextID + (addCount rest : Int) ≤ intMax →
      (runOps s rest).nextID = s.nextID + (addCount rest : Int) ∧
      (issuedIDs s rest).Pairwise (· < ·) ∧
      ∀ i ∈ issuedIDs s rest, s.nextID ≤ i ∧ i < s.nextID + (addCount rest : Int))
    (h1 : intMin ≤ s.nextID) (h2 : s.nextID + (addCount (op :: rest) : Int) ≤ intMax)
    (hnid0 : (applyOp s op).nextID = s.nextID)
    (hiss : issuedIDs s (op :: rest) = issuedIDs (applyOp s op) rest)
    (hcnt : addCount (op :: rest) = addCount rest) :
    (runOps s (op :: rest)).nextID = s.nextID + (addCount (op :: rest) : Int) ∧
    (issuedIDs s (op :: rest)).Pairwise (· < ·) ∧
    ∀ i ∈ issuedIDs s (op :: rest),
      s.nextID ≤ i ∧ i < s.nextID + (addCount (op :: rest) : Int) := by
  rw [hcnt] at h2 ⊢
  rw [hiss]
  have hrun : runOps s (op :: rest) = runOps (applyOp s op) rest := rfl
  rw [hrun]
  obtain ⟨hnid, hpw, hbnd⟩ := ih (applyOp s op)
    (by rw [hnid0]; exact h1) (by rw [hnid0]; exact h2)
  rw [hnid0] at hnid hbnd
  exact ⟨hnid, hpw, hbnd⟩

lemma issuedIDs_bounds (ops : List Op) : ∀ s : NoteService,
    intMin ≤ s.nextID → s.nextID + (addCount ops : Int) ≤ intMax →
    (runOps s ops).nextID = s.nextID + (addCount ops : Int) ∧
    (issuedIDs s ops).Pairwise (· < ·) ∧
    ∀ i ∈ issuedIDs s ops, s.nextID ≤ i ∧ i < s.nextID + (addCount ops : Int) := by
  induction ops with
  | nil =>
    intro s h1 h2
    refine ⟨by simp [runOps, addCount], by simp [issuedIDs], by simp [issuedIDs]⟩
  | cons op rest ih =>
    intro s h1 h2
    cases op with
    | add text pinned now =>
      have hcnt : ((addCount (Op.add text pinned now :: rest) : Nat) : Int) =
          (addCount rest : Int) + 1 := by
        show ((addCount rest + 1 : Nat) : Int) = (addCount rest : Int) + 1
        push_cast
        ring
      have hnn : (0 : Int) ≤ (addCount rest : Int) := Nat.cast_nonneg _
      rw [hcnt] at h2
      have hbump : (applyOp s (.add text pinned now)).nextID = s.nextID + 1 := by
        show wrapInt (s.nextID + 1) = s.nextID + 1
        exact wrapInt_eq_self _ (by linarith) (by linarith)
      obtain ⟨hnid, hpw, hbnd⟩ := ih (applyOp s (.add text pinned now))
        (by rw [hbump]; linarith) (by rw [hbump]; linarith)
      rw [hbump] at hnid hbnd
      refine ⟨?_, ?_, ?_⟩
      · show (runOps (applyOp s (.add text pinned now)) rest).nextID =
          s.nextID + ((addCount (Op.add text pinned now :: rest) : Nat) : Int)
        rw [hnid, hcnt]
        ring
      · show (s.nextID :: issuedIDs (applyOp s (.add text pinned now)) rest).Pairwise (· < ·)
        refine List.Pairwise.cons (fun i hi => ?_) hpw
        have := (hbnd i hi).1
        linarith
      · intro i hi
        have hi' : i ∈ s.nextID :: issuedIDs (applyOp s (.add text pinned now)) rest := hi
        rw [hcnt]
        rcases List.mem_cons.mp hi' with hi2 | hi2
        · subst hi2
          exact ⟨le_refl _, by linarith⟩
        · obtain ⟨hb1, hb2⟩ := hbnd i hi2
          exact ⟨by linarith, by linarith⟩
    | remove sel =>
      exact boundsStep s _ rest ih h1 h2 (nextID_applyOp_eq s (.remove sel)) rfl rfl
    | clear =>
      exact boundsStep s _ rest ih h1 h2 (nextID_applyOp_eq s .clear) rfl rfl
    | pin sel =>
      exact boundsStep s _ rest ih h1 h2 (nextID_applyOp_eq s (.pin sel)) rfl rfl
    | unpin sel =>
      exact boundsStep s _ rest ih h1 h2 (nextID_applyOp_eq s (.unpin sel)) rfl rfl
    | showOp sel =>
      exact boundsStep s _ rest ih h1 h2 (nextID_applyOp_eq s (.showOp sel)) rfl rfl
    | list =>
      exact boundsStep s _ rest ih h1 h2 (nextID_applyOp_eq s .list) rfl rfl

lemma runOps_append (l1 l2 : List Op) : ∀ s, runOps s (l1 ++ l2) = runOps (runOps s l1) l2 := by
  induction l1 with
  | nil => intro s; rfl
  | cons op rest ih => intro s; exact ih (applyOp s op)

lemma issuedIDs_append (l1 l2 : List Op) : ∀ s,
    issuedIDs s (l1 ++ l2) = issuedIDs s l1 ++ issuedIDs (runOps s l1) l2 := by
  induction l1 with
  | nil => intro s; rfl
  | cons op rest ih =>
    intro s
    cases op with
    | add text pinned now =>
      have hdef : issuedIDs s (Op.add text pinned now :: rest ++ l2) =
          s.nextID :: issuedIDs (applyOp s (.add text pinned now)) (rest ++ l2) := rfl
      rw [hdef, ih (applyOp s (.add text pinned now))]
      rfl
    | remove sel => exact ih (applyOp s (.remove sel))
    | clear => exact ih (applyOp s .clear)
    | pin sel => exact ih (applyOp s (.pin sel))
    | unpin sel => exact ih (applyOp s (.unpin sel))
    | showOp sel => exact ih (applyOp s (.showOp sel))
    | list => exact ih (applyOp s .list)

lemma addCount_replicate (n : Nat) (text : String) (pinned : Bool) (now : Nat) :
    addCount (List.replicate n (Op.add text pinned now)) = n := by
  induction n with
  | zero => rfl
  | succ k ih => simp [List.replicate_succ, addCount, ih]

lemma nextID_replicate (n : Nat) (text : String) (pinned : Bool) (now : Nat)
    (h : (n : Int) ≤ 2 ^ 63 - 2) :
    (runOps fresh (List.replicate n (Op.add text pinned now))).nextID = 1 + (n : Int) := by
  have hb := issuedIDs_bounds (List.replicate n (Op.add text pinned now)) fresh
    (by norm_num [intMin, fresh])
    (by rw [addCount_replicate]; simp only [intMax, fresh]; linarith)
  rw [hb.1, addCount_replicate]
  simp [fresh]

/-- At the 2^63 − 1-st add from a fresh store, the issued id is `intMax` and
the counter wraps to `intMin`: Go's `nextID++` overflows. -/
lemma replicate_overflow :
    intMax ∈ issuedIDs fresh (List.replicate (2 ^ 63 - 1) (Op.add "x" false 0)) ∧
    (runOps fresh (List.replicate (2 ^ 63 - 1) (Op.add "x" false 0))).nextID = intMin := by
  have hsplit : List.replicate (2 ^ 63 - 1) (Op.add "x" false 0) =
      List.replicate (2 ^ 63 - 2) (Op.add "x" false 0) ++ [Op.add "x" false 0] := by
    have h1 : (2 : Nat) ^ 63 - 1 = (2 ^ 63 - 2) + 1 := by norm_num
    rw [h1, List.replicate_add, List.replicate_one]
  have hcast : ((2 ^ 63 - 2 : Nat) : Int) = 2 ^ 63 - 2 := by
    have h2 : (2 : Nat) ^ 63 - 2 = 9223372036854775806 := by norm_num
    rw [h2]
    norm_num
  have hs1 : (runOps fresh (List.replicate (2 ^ 63 - 2) (Op.add "x" false 0))).nextID =
      intMax := by
    rw [nextID_replicate _ _ _ _ (le_of_eq hcast), hcast]
    simp only [intMax]
    ring
  have hone : issuedIDs (runOps fresh (List.replicate (2 ^ 63 - 2) (Op.add "x" false 0)))
      [Op.add "x" false 0] =
      [(runOps fresh (List.replicate (2 ^ 63 - 2) (Op.add "x" false 0))).nextID] := rfl
  constructor
  · rw [hsplit, issuedIDs_append]
    apply List.mem_append_right
    rw [hone, hs1]
    exact List.mem_singleton.mpr rfl
  · rw [hsplit, runOps_append]
    show wrapInt ((runOps fresh (List.replicate (2 ^ 63 - 2) (Op.add "x" false 0))).nextID
      + 1) = intMin
    rw [hs1]
    decide

/-- C2 counterexample: a fresh store followed by 2^63 − 1 adds has issued the
id `intMax`, yet the wrapped next-id counter is `intMin`, which is not
strictly greater than that issued id — so the unconditional claim fails once
Go's 64-bit counter overflows. -/
theorem issued_ids_wraparound_counterexample :
    intMax ∈ issuedIDs fresh (List.replicate (2 ^ 63 - 1) (Op.add "x" false 0)) ∧
    (runOps fresh (List.replicate (2 ^ 63 - 1) (Op.add "x" false 0))).nextID = intMin ∧
    ¬ intMax < intMin :=
  ⟨replicate_overflow.1, replicate_overflow.2, by decide⟩

/-- C2 as amended: over any request sequence from a fresh store that performs
at most 2^63 − 2 `add` calls — so the 64-bit counter never overflows — the
ids assigned by successive `add` calls are strictly increasing (hence
pairwise distinct and never reused after a removal), and the next-id counter
stays strictly above every id ever issued. -/
theorem issued_ids_strictly_increasing (ops : List Op)
    (h : (addCount ops : Int) ≤ 2 ^ 63 - 2) :
    (issuedIDs fresh ops).Pairwise (· < ·) ∧
    (issuedIDs fresh ops).Nodup ∧
    ∀ i ∈ issuedIDs fresh ops, i < (runOps fresh ops).nextID := by
  obtain ⟨hnid, hpw, hbnd⟩ := issuedIDs_bounds ops fresh
    (by norm_num [intMin, fresh]) (by simp only [intMax, fresh]; linarith)
  refine ⟨hpw, hpw.imp (fun hlt => ne_of_lt hlt), fun i hi => ?_⟩
  rw [hnid]
  exact (hbnd i hi).2

/-- Witness for C2: a short add/remove/add sequence satisfies the no-overflow
bound and the conclusions. -/
theorem issued_ids_strictly_increasing_witness :
    (addCount [Op.add "Buy milk" false 0, Op.remove "1", Op.add "Check logs" false 1] :
      Int) ≤ 2 ^ 63 - 2 ∧
    ((issuedIDs fresh [Op.add "Buy milk" false 0, Op.remove "1",
        Op.add "Check logs" false 1]).Pairwise (· < ·) ∧
      (issuedIDs fresh [Op.add "Buy milk" false 0, Op.remove "1",
        Op.add "Check logs" false 1]).Nodup ∧
      ∀ i ∈ issuedIDs fresh [Op.add "Buy milk" false 0, Op.remove "1",
        Op.add "Check logs" false 1],
        i < (runOps fresh [Op.add "Buy milk" false 0, Op.remove "1",
          Op.add "Check logs" false 1]).nextID) :=
  ⟨by decide, issued_ids_strictly_increasing _ (by decide)⟩

lemma getD_append_length {α : Type} (l : List α) (a d : α) :
    (l ++ [a]).getD l.length d = a := by
  induction l with
  | nil => rfl
  | cons x xs ih => simp [ih]

/-- Copying the note appended right after a clear: the store then holds
exactly one note, carrying the pre-clear counter value as id. -/
lemma view_add_after_clear (s : NoteService) (args : AddArgs) (now : Nat) :
    view ((s.Clear.2.Add args now).2) =
      [{ id := s.nextID, text := args.text, pinned := false, createdAt := now }] := by
  simp [NoteService.Clear, NoteService.Add, view, deref, getD_append_length]

/-- C8 counterexample: after 2^63 − 1 adds the id `intMax` has been issued
and the counter has wrapped to `intMin`; clearing and adding again stores a
note with id `intMin`, which is not strictly greater than the id `intMax`
issued before the clear. -/
theorem clear_wraparound_counterexample :
    intMax ∈ issuedIDs fresh (List.replicate (2 ^ 63 - 1) (Op.add "x" false 0)) ∧
    view (((runOps fresh (List.replicate (2 ^ 63 - 1) (Op.add "x" false 0))).Clear.2.Add
        { text := "y", pinned := false } 0).2) =
      [{ id := intMin, text := "y", pinned := false, createdAt := 0 }] ∧
    ¬ intMax < intMin := by
  refine ⟨replicate_overflow.1, ?_, by decide⟩
  rw [view_add_after_clear, replicate_overflow.2]

/-- C8 as amended: `Clear` empties the note sequence and never fails (it is
total and always replies with its message) and leaves the next-id counter
unchanged; provided at most 2^63 − 2 adds were performed before the clear —
so the 64-bit counter has not overflowed — an `add` performed right after the
clear is assigned an id strictly greater than every id issued before it. -/
theorem clear_keeps_counter (ops : List Op) (args : AddArgs) (now : Nat)
    (h : (addCount ops : Int) ≤ 2 ^ 63 - 2) :
    ((runOps fresh ops).Clear.2).ptrs = [] ∧
    ((runOps fresh ops).Clear.2).nextID = (runOps fresh ops).nextID ∧
    (runOps fresh ops).Clear.1 =
      { note := none, message := "✨ All notes cleared. Session ended." } ∧
    view ((((runOps fresh ops).Clear.2).Add args now).2) =
      [{ id := (runOps fresh ops).nextID, text := args.text, pinned := false,
         createdAt := now }] ∧
    ∀ i ∈ issuedIDs fresh ops, i < (runOps fresh ops).nextID := by
  obtain ⟨hnid, hpw, hbnd⟩ := issuedIDs_bounds ops fresh
    (by norm_num [intMin, fresh]) (by simp only [intMax, fresh]; linarith)
  refine ⟨rfl, rfl, rfl, view_add_after_clear _ args now, fun i hi => ?_⟩
  rw [hnid]
  exact (hbnd i hi).2

/-- Witness for C8: two adds, then clear, then a third add issued id 3. -/
theorem clear_keeps_counter_witness :
    (addCount [Op.add "Buy milk" false 0, Op.add "Check logs" false 1] : Int) ≤ 2 ^ 63 - 2 ∧
    (((runOps fresh [Op.add "Buy milk" false 0, Op.add "Check logs" false 1]).Clear.2).ptrs
        = [] ∧
      ((runOps fresh [Op.add "Buy milk" false 0, Op.add "Check logs" false 1]).Clear.2).nextID
        = (runOps fresh [Op.add "Buy milk" false 0, Op.add "Check logs" false 1]).nextID ∧
      (runOps fresh [Op.add "Buy milk" false 0, Op.add "Check logs" false 1]).Clear.1 =
        { note := none, message := "✨ All notes cleared. Session ended." } ∧
      view ((((runOps fresh [Op.add "Buy milk" false 0,
            Op.add "Check logs" false 1]).Clear.2).Add
          { text := "Wrap up", pinned := false } 2).2) =
        [{ id := (runOps fresh [Op.add "Buy milk" false 0,
            Op.add "Check logs" false 1]).nextID,
           text := "Wrap up", pinned := false, createdAt := 2 }] ∧
      ∀ i ∈ issuedIDs fresh [Op.add "Buy milk" false 0, Op.add "Check logs" false 1],
        i < (runOps fresh [Op.add "Buy milk" false 0, Op.add "Check logs" false 1]).nextID) :=
  ⟨by decide, clear_keeps_counter _ _ _ (by decide)⟩

/-- C3: on a non-empty store, the selector "first" (matched
case-insensitively) resolves to the earliest-inserted remaining note — the
head of the current sequence, at index 0, whatever its id — and "last" to the
most-recently-inserted remaining note; keyword resolution never fails. -/
theorem resolve_first_last (s : NoteService) (str : String) (h : s.ptrs ≠ []) :
    (lowerStr str = "first" →
      s.resolveID str = .ok (s.ptrs.getD 0 0, 0) ∧
      deref s (s.ptrs.getD 0 0) = (view s).getD 0 default) ∧
    (lowerStr str = "last" →
      s.resolveID str = .ok (s.ptrs.getD (s.ptrs.length - 1) 0, s.ptrs.length - 1) ∧
      deref s (s.ptrs.getD (s.ptrs.length - 1) 0) =
        (view s).getD (s.ptrs.length - 1) default) ∧
    ((lowerStr str = "first" ∨ lowerStr str = "last") →
      ∀ e, s.resolveID str ≠ .error e) := by
  have h0 : ¬ s.ptrs.length = 0 := by simpa [List.length_eq_zero] using h
  have hpos : 0 < s.ptrs.length := Nat.pos_of_ne_zero h0
  refine ⟨fun hf => ⟨?_, (view_getD s 0 hpos).symm⟩,
    fun hl => ⟨?_, (view_getD s (s.ptrs.length - 1) (by omega)).symm⟩, fun hk e => ?_⟩
  · unfold NoteService.resolveID
    rw [if_neg h0, if_pos hf]
  · have hne : lowerStr str ≠ "first" := by rw [hl]; decide
    unfold NoteService.resolveID
    rw [if_neg h0, if_neg hne, if_pos hl]
  · rcases hk with hf | hl
    · unfold NoteService.resolveID
      rw [if_neg h0, if_pos hf]
      exact fun hc => Except.noConfusion hc
    · by_cases hne : lowerStr str = "first"
      · unfold NoteService.resolveID
        rw [if_neg h0, if_pos hne]
        exact fun hc => Except.noConfusion hc
      · unfold NoteService.resolveID
        rw [if_neg h0, if_neg hne, if_pos hl]
        exact fun hc => Except.noConfusion hc

/-- Witness for C3: on the two-note store, "FiRsT" resolves to the first
note (pointer 0, index 0) and "LAST" to the second, and neither fails. -/
theorem resolve_first_last_witness :
    demo2.resolveID "FiRsT" = .ok (demo2.ptrs.getD 0 0, 0) ∧
    demo2.resolveID "LAST" =
      .ok (demo2.ptrs.getD (demo2.ptrs.length - 1) 0, demo2.ptrs.length - 1) ∧
    ∀ e, demo2.resolveID "FiRsT" ≠ .error e :=
  ⟨((resolve_first_last demo2 "FiRsT" (by decide)).1 (by decide)).1,
   ((resolve_first_last demo2 "LAST" (by decide)).2.1 (by decide)).1,
   (resolve_first_last demo2 "FiRsT" (by decide)).2.2 (Or.inl (by decide))⟩

lemma op_error_iff (s : NoteService) (sel : String) (e : ResolveErr) :
    ((s.Remove { idStr := sel }).1 = .error e ↔ s.resolveID sel = .error e) ∧
    ((s.Pin { idStr := sel }).1 = .error e ↔ s.resolveID sel = .error e) ∧
    ((s.Unpin { idStr := sel }).1 = .error e ↔ s.resolveID sel = .error e) ∧
    ((s.Show { idStr := sel }).1 = .error e ↔ s.resolveID sel = .error e) := by
  cases hr : s.resolveID sel with
  | error e' =>
    simp [NoteService.Remove, NoteService.Pin, NoteService.Unpin, NoteService.Show, hr]
  | ok pi =>
    cases pi
    simp [NoteService.Remove, NoteService.Pin, NoteService.Unpin, NoteService.Show, hr]

/-- C6: on a non-empty store, resolution fails with `InvalidSelector` exactly
when the selector is neither keyword (case-insensitively) nor a parseable
decimal integer, and with `NotFound` exactly when it parses as an integer
matching no remaining note's id; and each error kind propagates unchanged
through `Remove`, `Pin`, `Unpin` and `Show`. -/
theorem resolve_error_classification (s : NoteService) (str : String) (h : s.ptrs ≠ []) :
    (s.resolveID str = .error .invalidSelector ↔
      (lowerStr str ≠ "first" ∧ lowerStr str ≠ "last" ∧ goAtoi str = none)) ∧
    (∀ id : Int, s.resolveID str = .error (.notFound id) ↔
      (lowerStr str ≠ "first" ∧ lowerStr str ≠ "last" ∧ goAtoi str = some id ∧
        ∀ n ∈ view s, n.id ≠ id)) ∧
    (∀ e, ((s.Remove { idStr := str }).1 = .error e ↔ s.resolveID str = .error e)) ∧
    (∀ e, ((s.Pin { idStr := str }).1 = .error e ↔ s.resolveID str = .error e)) ∧
    (∀ e, ((s.Unpin { idStr := str }).1 = .error e ↔ s.resolveID str = .error e)) ∧
    (∀ e, ((s.Show { idStr := str }).1 = .error e ↔ s.resolveID str = .error e)) := by
  have h0 : ¬ s.ptrs.length = 0 := by simpa [List.length_eq_zero] using h
  have hview : ∀ id : Int, (∀ n ∈ view s, n.id ≠ id) ↔
      (∀ p ∈ s.ptrs, (deref s p).id ≠ id) := by
    intro id
    simp [view]
  refine ⟨?_, ?_, fun e => (op_error_iff s str e).1, fun e => (op_error_iff s str e).2.1,
    fun e => (op_error_iff s str e).2.2.1, fun e => (op_error_iff s str e).2.2.2⟩
  · constructor
    · intro he
      unfold NoteService.resolveID at he
      rw [if_neg h0] at he
      by_cases hf : lowerStr str = "first"
      · rw [if_pos hf] at he
        exact absurd he (fun hc => Except.noConfusion hc)
      · rw [if_neg hf] at he
        by_cases hl : lowerStr str = "last"
        · rw [if_pos hl] at he
          exact absurd he (fun hc => Except.noConfusion hc)
        · rw [if_neg hl] at he
          split at he
          · next ha => exact ⟨hf, hl, ha⟩
          · next id ha =>
            split at he
            · exact absurd he (fun hc => Except.noConfusion hc)
            · injection he with he2
              exact absurd he2 (fun hc => ResolveErr.noConfusion hc)
    · rintro ⟨hf, hl, ha⟩
      unfold NoteService.resolveID
      rw [if_neg h0, if_neg hf, if_neg hl, ha]
  · intro id
    constructor
    · intro he
      unfold NoteService.resolveID at he
      rw [if_neg h0] at he
      by_cases hf : lowerStr str = "first"
      · rw [if_pos hf] at he
        exact absurd he (fun hc => Except.noConfusion hc)
      · rw [if_neg hf] at he
        by_cases hl : lowerStr str = "last"
        · rw [if_pos hl] at he
          exact absurd he (fun hc => Except.noConfusion hc)
        · rw [if_neg hl] at he
          split at he
          · next ha =>
            injection he with he2
            exact absurd he2 (fun hc => ResolveErr.noConfusion hc)
          · next id2 ha =>
            split at he
            · exact absurd he (fun hc => Except.noConfusion hc)
            · next hfn =>
              injection he with he2
              injection he2 with he3
              subst he3
              exact ⟨hf, hl, ha, (hview id2).mpr
                ((findNote_eq_none_iff s id2 s.ptrs 0).mp hfn)⟩
    · rintro ⟨hf, hl, ha, hnone⟩
      have hfn : findNote s s.ptrs 0 id = none :=
        (findNote_eq_none_iff s id s.ptrs 0).mpr ((hview id).mp hnone)
      unfold NoteService.resolveID
      rw [if_neg h0, if_neg hf, if_neg hl, ha]
      show (match findNote s s.ptrs 0 id with
        | some pi => Except.ok pi
        | none => Except.error (ResolveErr.notFound id)) =
          Except.error (ResolveErr.notFound id)
      rw [hfn]

/-- Witness for C6: `pin "2"` on a store containing only id 1 fails with
`NotFound`, and a non-numeric, non-keyword selector with
`InvalidSelector`. -/
theorem resolve_error_classification_witness :
    (demo1.Pin { idStr := "2" }).1 = .error (.notFound 2) ∧
    demo1.resolveID "abc" = .error .invalidSelector :=
  ⟨((resolve_error_classification demo1 "2" (by decide)).2.2.2.1 (.notFound 2)).mpr
      (((resolve_error_classification demo1 "2" (by decide)).2.1 2).mpr
        ⟨by decide, by decide, by decide, by decide⟩),
   ((resolve_error_classification demo1 "abc" (by decide)).1).mpr
      ⟨by decide, by decide, by decide⟩⟩

lemma deref_set_self (s : NoteService) (p : Nat) (n : Note) (hp : p < s.heap.length) :
    deref { s with heap := s.heap.set p n } p = n := by
  show (s.heap.set p n).getD p default = n
  rw [getD_of_lt _ _ _ (by simpa using hp)]
  simp

/-- C9: `List` returns all notes in insertion order as an independent copy
and never fails (it is total and leaves the store unchanged), and a
previously returned snapshot is not altered by a later mutation: after a
subsequent `Pin` of an unpinned note, the already-returned snapshot still
shows the note unpinned while a fresh `List` shows it pinned, so the two
replies differ. -/
theorem list_returns_independent_snapshot (s : NoteService) (hWF : WF s) (sel : String)
    (p idx : Nat) (hres : s.resolveID sel = .ok (p, idx))
    (hunpinned : (deref s p).pinned = false) :
    (s.List).2 = s ∧
    (s.List).1.notes = view s ∧
    ((s.List).1.notes.getD idx default).pinned = false ∧
    ((((s.Pin { idStr := sel }).2).List).1.notes.getD idx default).pinned = true ∧
    (s.List).1.notes ≠ (((s.Pin { idStr := sel }).2).List).1.notes := by
  obtain ⟨hidx, hgd⟩ := resolveID_ok_spec s sel p idx hres
  have hmem : p ∈ s.ptrs := hgd ▸ getD_mem s.ptrs 0 idx hidx
  have hp : p < s.heap.length := hWF p hmem
  have hs' : (s.Pin { idStr := sel }).2 =
      { s with heap := s.heap.set p { deref s p with pinned := true } } := by
    simp [NoteService.Pin, hres]
  have hold : ((s.List).1.notes.getD idx default).pinned = false := by
    show ((view s).getD idx default).pinned = false
    rw [view_getD s idx hidx, hgd]
    exact hunpinned
  have hnew : ((((s.Pin { idStr := sel }).2).List).1.notes.getD idx default).pinned = true := by
    rw [hs']
    show ((view { s with heap := s.heap.set p { deref s p with pinned := true } }).getD
      idx default).pinned = true
    rw [view_getD _ idx (by simpa using hidx)]
    have : ({ s with heap := s.heap.set p { deref s p with pinned := true }} :
        NoteService).ptrs.getD idx 0 = p := hgd
    rw [this, deref_set_self s p _ hp]
  refine ⟨rfl, rfl, hold, hnew, fun heq => ?_⟩
  have := congrArg (fun l => (l.getD idx default).pinned) heq
  simp only [hold, hnew] at this
  exact Bool.false_ne_true this

/-- Witness for C9: pin the first note of the two-note store; the snapshot
taken before the pin still shows it unpinned. -/
theorem list_returns_independent_snapshot_witness :
    WF demo2 ∧ demo2.resolveID "1" = .ok (0, 0) ∧ (deref demo2 0).pinned = false ∧
    ((demo2.List).2 = demo2 ∧
     (demo2.List).1.notes = view demo2 ∧
     ((demo2.List).1.notes.getD 0 default).pinned = false ∧
     ((((demo2.Pin { idStr := "1" }).2).List).1.notes.getD 0 default).pinned = true ∧
     (demo2.List).1.notes ≠ (((demo2.Pin { idStr := "1" }).2).List).1.notes) :=
  ⟨by decide, by decide, by decide,
   list_returns_independent_snapshot demo2 (by decide) "1" 0 0 (by decide) (by decide)⟩
